import Mathlib

/-!
Verification of the cr-analyzer LSP test harness (src/main.py, src/tests/)
against its specification. The Python source is shallowly embedded: strings
become `List Char`, Python's fallible `str.index` becomes `Option`, and the
async teardown sequence becomes an explicit event trace over a process state.
-/

namespace CRA

/-! ## PositionResolver (src/main.py, `position_for`)

`position_for(text, needle, offset, occurrence)` does:
    idx = -1
    for _ in range(occurrence + 1): idx = text.index(needle, idx + 1)
    idx += offset
    line = text.count("\n", 0, idx)
    last_nl = text.rfind("\n", 0, idx)
    col = idx - (last_nl + 1 if last_nl != -1 else 0)
-/

/-- Does `needle` match `text` at position `i`? (Python substring match.) -/
def matchesAt (text needle : List Char) (i : Nat) : Bool :=
  needle.isPrefixOf (text.drop i)

/-- Python `text.index(needle, start)` / `text.find(needle, start)`: the least
position `i` with `start ≤ i ≤ len(text)` where `needle` matches, if any. -/
def strFind (text needle : List Char) (start : Nat) : Option Nat :=
  (List.range (text.length + 1)).find? (fun i => decide (start ≤ i) && matchesAt text needle i)

/-- All positions where `needle` matches `text` (overlapping occurrences), in
increasing order. -/
def occList (text needle : List Char) : List Nat :=
  (List.range (text.length + 1)).filter (fun i => matchesAt text needle i)

/-- How many (possibly overlapping) occurrences of `needle` appear in `text`. -/
def countOcc (text needle : List Char) : Nat :=
  (occList text needle).length

/-- The source's search loop: `k + 1` repetitions of `idx = text.index(needle,
idx + 1)` starting from `start` (`start = 0` models the initial `idx = -1`). -/
def nthOccFrom (text needle : List Char) : Nat → Nat → Option Nat
  | start, 0 => strFind text needle start
  | start, k + 1 =>
    match strFind text needle start with
    | none => none
    | some i => nthOccFrom text needle (i + 1) k

/-- Python slice-end clamping: the effective end index of `s[0:i]` for a
string of length `n`. -/
def pyEnd (n : Nat) (i : Int) : Nat :=
  if i < 0 then ((n : Int) + i).toNat else min n i.toNat

/-- Positions of newline characters in `text[0:e]`, in increasing order. -/
def nlPos (text : List Char) (e : Nat) : List Nat :=
  (List.range e).filter (fun p => decide (text[p]? = some '\n'))

/-- Python `text.count("\n", 0, idx)` (with `e` the clamped end). -/
def countNlPy (text : List Char) (e : Nat) : Nat :=
  (nlPos text e).length

/-- Python `text.rfind("\n", 0, idx)` (with `e` the clamped end): the largest
newline position below `e`, or `-1`. -/
def rfindNlPy (text : List Char) (e : Nat) : Int :=
  (((nlPos text e).getLast?).map (fun p => (p : Int))).getD (-1)

/-- The source's column computation:
`col = idx - (last_nl + 1 if last_nl != -1 else 0)`. -/
def colPy (text : List Char) (idx : Int) : Int :=
  idx - (if rfindNlPy text (pyEnd text.length idx) = -1 then 0
         else rfindNlPy text (pyEnd text.length idx) + 1)

/-- An LSP position as built by `position_for` (lsprotocol `types.Position`). -/
structure Position where
  line : Nat
  character : Int
deriving DecidableEq

/-- `position_for(text, needle, offset, occurrence)`; `none` models the
`ValueError` Python's `str.index` raises when the needle is not found. -/
def position_for (text needle : List Char) (offset : Int) (occurrence : Nat) : Option Position :=
  match nthOccFrom text needle 0 occurrence with
  | none => none
  | some i =>
    some (Position.mk
      (countNlPy text (pyEnd text.length ((i : Int) + offset)))
      (colPy text ((i : Int) + offset)))

/-- The start index of line `line` as the spec's round-trip wording describes
it: one past the line-th newline of the text, or 0 for line 0. -/
def lineStart (text : List Char) (line : Nat) : Nat :=
  if line = 0 then 0 else
    (((nlPos text text.length)[line - 1]?).map (fun p => p + 1)).getD 0

/-! ### Lemmas about the occurrence search -/

theorem find?_eq_head?_filter {α : Type} (p : α → Bool) (l : List α) :
    l.find? p = (l.filter p).head? := by
  induction l with
  | nil => rfl
  | cons a t ih =>
    by_cases h : p a = true
    · rw [List.find?_cons_of_pos _ h, List.filter_cons_of_pos h, List.head?_cons]
    · rw [List.find?_cons_of_neg _ (by simpa using h), List.filter_cons_of_neg (by simpa using h), ih]

theorem strFind_eq_head (text needle : List Char) (start : Nat) :
    strFind text needle start =
      ((occList text needle).filter (fun j => decide (start ≤ j))).head? := by
  unfold strFind occList
  rw [find?_eq_head?_filter, List.filter_filter]

theorem occList_pairwise (text needle : List Char) :
    (occList text needle).Pairwise (· < ·) :=
  List.Pairwise.filter _ (List.pairwise_lt_range _)

theorem filter_ge_tail : ∀ (l : List Nat), l.Pairwise (· < ·) → ∀ (start i : Nat),
    (l.filter (fun j => decide (start ≤ j))).head? = some i →
    (l.filter (fun j => decide (start ≤ j))).tail = l.filter (fun j => decide (i + 1 ≤ j)) := by
  intro l
  induction l with
  | nil => intro _ start i h; simp at h
  | cons a t ih =>
    intro hpw start i h
    rw [List.pairwise_cons] at hpw
    obtain ⟨ha, ht⟩ := hpw
    by_cases hsa : start ≤ a
    · rw [List.filter_cons_of_pos (by simpa using hsa)] at h ⊢
      rw [List.head?_cons, Option.some.injEq] at h
      rw [List.tail_cons, List.filter_cons_of_neg (by simp [h]), ← h]
      have h1 : t.filter (fun j => decide (start ≤ j)) = t :=
        List.filter_eq_self.mpr (fun b hb => by
          simpa using Nat.le_trans hsa (Nat.le_of_lt (ha b hb)))
      have h2 : t.filter (fun j => decide (a + 1 ≤ j)) = t :=
        List.filter_eq_self.mpr (fun b hb => by simpa using ha b hb)
      rw [h1, h2]
    · rw [List.filter_cons_of_neg (by simpa using hsa)] at h ⊢
      have hi : i ∈ t.filter (fun j => decide (start ≤ j)) := by
        obtain ⟨ys, hys⟩ := List.head?_eq_some_iff.mp h
        rw [hys]; exact List.mem_cons_self _ _
      have hit : i ∈ t := (List.mem_filter.mp hi).1
      rw [List.filter_cons_of_neg (by simpa using Nat.not_le.mpr (Nat.lt_succ_of_lt (ha i hit)))]
      exact ih ht start i h

theorem nthOccFrom_eq_getElem (text needle : List Char) :
    ∀ (k start : Nat), nthOccFrom text needle start k =
      ((occList text needle).filter (fun j => decide (start ≤ j)))[k]? := by
  intro k
  induction k with
  | zero =>
    intro start
    rw [nthOccFrom, strFind_eq_head, List.head?_eq_getElem?]
  | succ k ih =>
    intro start
    rw [nthOccFrom]
    cases h : strFind text needle start with
    | none =>
      rw [strFind_eq_head, List.head?_eq_none_iff] at h
      rw [h]
      rfl
    | some i =>
      show nthOccFrom text needle (i + 1) k =
        ((occList text needle).filter (fun j => decide (start ≤ j)))[k + 1]?
      rw [strFind_eq_head] at h
      rw [ih (i + 1), ← filter_ge_tail (occList text needle) (occList_pairwise text needle) start i h,
        List.getElem?_tail]

theorem nthOcc_eq_getElem (text needle : List Char) (k : Nat) :
    nthOccFrom text needle 0 k = (occList text needle)[k]? := by
  rw [nthOccFrom_eq_getElem]
  congr 1
  exact List.filter_eq_self.mpr (fun a _ => by simp)

/-! ### The claims about PositionResolver -/

/-- C4: `position_for` fails (raises `ValueError`, the `PatternNotFound`
condition) exactly when the pattern occurs fewer than `occurrence + 1` times
in the text; in particular text "abc", pattern "zz", occurrence 0 fails. -/
theorem position_for_fails_iff (text needle : List Char) (offset : Int) (occ : Nat) :
    (position_for text needle offset occ = none ↔ countOcc text needle < occ + 1) ∧
    position_for ("abc".toList) ("zz".toList) 0 0 = none := by
  constructor
  · have h1 : position_for text needle offset occ = none ↔
        nthOccFrom text needle 0 occ = none := by
      unfold position_for
      cases nthOccFrom text needle 0 occ <;> simp
    rw [h1, nthOcc_eq_getElem, List.getElem?_eq_none_iff, countOcc, Nat.lt_succ_iff]
  · decide

/-- C8: the search resumes one character past the start of the previous
match, so occurrences may overlap: for text "aaa" and pattern "aa" with
occurrence 1 the resolver succeeds at absolute index 1 (line 0, column 1). -/
theorem position_for_overlapping_occurrence :
    nthOccFrom ("aaa".toList) ("aa".toList) 0 1 = some 1 ∧
    position_for ("aaa".toList) ("aa".toList) 0 1 = some (Position.mk 0 1) := by
  exact ⟨by decide, by decide⟩

/-- C2: round-trip. When the pattern occurs at least `occ + 1` times and the
absolute index (match start plus offset) lies within the text, the returned
line/column convert back to that absolute index: the start index of the
returned line plus the returned column is the match start plus the offset. -/
theorem position_for_roundtrip (text needle : List Char) (offset : Int) (occ : Nat)
    (hocc : occ + 1 ≤ countOcc text needle)
    (hin : ∀ i, nthOccFrom text needle 0 occ = some i →
      0 ≤ (i : Int) + offset ∧ (i : Int) + offset ≤ (text.length : Int)) :
    ∃ idx line col, nthOccFrom text needle 0 occ = some idx ∧
      position_for text needle offset occ = some (Position.mk line col) ∧
      (lineStart text line : Int) + col = (idx : Int) + offset := by
  have hlt : occ < (occList text needle).length := hocc
  have hidx : nthOccFrom text needle 0 occ = some ((occList text needle)[occ]) := by
    rw [nthOcc_eq_getElem]
    exact List.getElem?_eq_getElem hlt
  obtain ⟨h0, h1⟩ := hin ((occList text needle)[occ]) hidx
  refine ⟨(occList text needle)[occ],
    countNlPy text (pyEnd text.length (((occList text needle)[occ] : Int) + offset)),
    colPy text (((occList text needle)[occ] : Int) + offset), hidx, ?_, ?_⟩
  · unfold position_for
    rw [hidx]
  · generalize hj : ((occList text needle)[occ] : Int) + offset = j at h0 h1 ⊢
    have he : pyEnd text.length j = j.toNat := by
      unfold pyEnd
      rw [if_neg (by omega), Nat.min_eq_right (Int.toNat_le.mpr h1)]
    have hline : countNlPy text (pyEnd text.length j) = (nlPos text j.toNat).length := by
      unfold countNlPy
      rw [he]
    cases hlast : (nlPos text j.toNat).getLast? with
    | none =>
      have hnil : nlPos text j.toNat = [] := List.getLast?_eq_none_iff.mp hlast
      have hrf0 : rfindNlPy text j.toNat = -1 := by
        unfold rfindNlPy
        rw [hnil]
        rfl
      have hcol0 : colPy text j = j := by
        unfold colPy
        rw [he, hrf0]
        simp
      have hline0 : countNlPy text (pyEnd text.length j) = 0 := by
        rw [hline, hnil]
        rfl
      rw [hline0, hcol0]
      unfold lineStart
      rw [if_pos rfl]
      simp
    | some p =>
      have hpmem : p ∈ nlPos text j.toNat := List.mem_of_getLast?_eq_some hlast
      have hplen : 0 < (nlPos text j.toNat).length :=
        List.length_pos.mpr (fun hh => absurd (hh ▸ hpmem) (List.not_mem_nil p))
      have hsplit : nlPos text text.length = nlPos text j.toNat ++
          (((List.range (text.length - j.toNat)).map (j.toNat + ·)).filter
            (fun q => decide (text[q]? = some '\n'))) := by
        unfold nlPos
        conv_lhs =>
          rw [show text.length = j.toNat + (text.length - j.toNat) from
            (Nat.add_sub_cancel' (Int.toNat_le.mpr h1)).symm]
        rw [List.range_add, List.filter_append]
      have hgl : (nlPos text text.length)[(nlPos text j.toNat).length - 1]? = some p := by
        rw [hsplit, List.getElem?_append_left (by omega), ← List.getLast?_eq_getElem?]
        exact hlast
      have hrf : rfindNlPy text j.toNat = (p : Int) := by
        unfold rfindNlPy
        rw [hlast]
        rfl
      have hpne : ¬((p : Int) = -1) := by omega
      have hcol : colPy text j = j - ((p : Int) + 1) := by
        unfold colPy
        rw [he, hrf, if_neg hpne]
      have hls : lineStart text ((nlPos text j.toNat).length) = p + 1 := by
        unfold lineStart
        rw [if_neg (by omega), hgl]
        rfl
      rw [hline, hcol, hls]
      push_cast
      omega

/-- Witness for C2 at text "ab\ncd", pattern "cd", offset 1, occurrence 0
(absolute index 4, line 1, column 1). -/
theorem position_for_roundtrip_witness :
    ∃ idx line col, nthOccFrom ("ab\ncd".toList) ("cd".toList) 0 0 = some idx ∧
      position_for ("ab\ncd".toList) ("cd".toList) 1 0 = some (Position.mk line col) ∧
      (lineStart ("ab\ncd".toList) line : Int) + col = (idx : Int) + 1 := by
  refine position_for_roundtrip ("ab\ncd".toList) ("cd".toList) 1 0 (by decide) ?_
  intro i h
  have h3 : nthOccFrom ("ab\ncd".toList) ("cd".toList) 0 0 = some 3 := by decide
  rw [h3] at h
  cases h
  exact ⟨by decide, by decide⟩

/-! ## ProcessSupervisor teardown (src/main.py, `stop_client`)

`stop_client(client)` does, in source order:
    if client._stop_event: client._stop_event.set()
    if client._server:
        if server.stdin: server.stdin.close(); await server.stdin.wait_closed()
        if server.returncode is None:
            server.terminate()
            try: await asyncio.wait_for(server.wait(), timeout=2.0)
            except asyncio.TimeoutError: server.kill(); await server.wait()
    cancel and gather client._async_tasks

The state of the client/process pair is embedded explicitly, and the
sequence of side-effecting steps is recorded as an event trace. Whether the
process exits within the bounded graceful wait is the one environment
choice, carried as the `exitsOnTerm` field. -/

/-- One side-effecting step of the teardown sequence. -/
inductive Ev where
  | setStopEvent
  | closeStdin
  | waitClosed
  | terminate
  | gracefulWait
  | kill
  | waitExit
  | cancelTasks
deriving DecidableEq

/-- State of the client and its server process at teardown time, plus the
environment's choice of how the process reacts to the graceful signal. -/
structure ProcState where
  hasStopEvent : Bool
  hasProc : Bool
  hasStdin : Bool
  stdinOpen : Bool
  returncode : Option Int
  exitsOnTerm : Bool
  termCode : Int
  killCode : Int

/-- `stop_client`: the trace of teardown events and the resulting state. -/
def stop_client (p : ProcState) : List Ev × ProcState :=
  let e0 : List Ev := if p.hasStopEvent then [Ev.setStopEvent] else []
  if p.hasProc then
    let (e1, p1) :=
      if p.hasStdin then ([Ev.closeStdin, Ev.waitClosed], { p with stdinOpen := false })
      else ([], p)
    let (e2, p2) :=
      if p1.returncode = none then
        if p1.exitsOnTerm then
          ([Ev.terminate, Ev.gracefulWait], { p1 with returncode := some p1.termCode })
        else
          ([Ev.terminate, Ev.gracefulWait, Ev.kill, Ev.waitExit],
            { p1 with returncode := some p1.killCode })
      else ([], p1)
    (e0 ++ e1 ++ e2 ++ [Ev.cancelTasks], p2)
  else (e0 ++ [Ev.cancelTasks], p)

/-- Index of the first occurrence of an event in a trace (trace length if
absent). -/
def idxOfEv (a : Ev) : List Ev → Nat
  | [] => 0
  | b :: t => if a = b then 0 else idxOfEv a t + 1

/-- C1: the teardown sequence closes stdin before any termination signal,
sends the forceful kill only if the process was still alive after the
graceful signal and its bounded wait, and always returns with the process
exited (its return code set). -/
theorem stop_client_teardown (p : ProcState) (hp : p.hasProc = true) :
    (p.hasStdin = true → Ev.terminate ∈ (stop_client p).1 →
      idxOfEv Ev.closeStdin (stop_client p).1 < idxOfEv Ev.terminate (stop_client p).1) ∧
    (p.hasStdin = true → Ev.kill ∈ (stop_client p).1 →
      idxOfEv Ev.closeStdin (stop_client p).1 < idxOfEv Ev.kill (stop_client p).1) ∧
    (Ev.kill ∈ (stop_client p).1 →
      p.returncode = none ∧ p.exitsOnTerm = false ∧
      idxOfEv Ev.terminate (stop_client p).1 < idxOfEv Ev.gracefulWait (stop_client p).1 ∧
      idxOfEv Ev.gracefulWait (stop_client p).1 < idxOfEv Ev.kill (stop_client p).1) ∧
    ((stop_client p).2.returncode.isSome = true) := by
  obtain ⟨se, hpr, hs, so, rc, et, tc, kc⟩ := p
  simp only at hp
  subst hp
  cases se <;> cases hs <;> rcases rc with _ | c <;> cases et <;>
    simp [stop_client, idxOfEv]

/-- Witness for C1: a live process with stdin that ignores the graceful
signal is killed, after stdin was closed, and ends with an exit code. -/
theorem stop_client_teardown_witness :
    (idxOfEv Ev.closeStdin (stop_client (ProcState.mk true true true true none false 0 9)).1 <
      idxOfEv Ev.kill (stop_client (ProcState.mk true true true true none false 0 9)).1) ∧
    ((stop_client (ProcState.mk true true true true none false 0 9)).2.returncode.isSome = true) := by
  have h := stop_client_teardown (ProcState.mk true true true true none false 0 9) rfl
  exact ⟨h.2.1 rfl (by decide), h.2.2.2⟩

/-! ## Stderr drain task (src/main.py, `_drain_stderr`)

    async for line in server_proc.stderr:
        text = line.decode(errors="replace").rstrip()
        if "ERROR" in text or "Error" in text or "error" in text:
            log(f"[server stderr] {text}")

The stream is embedded as the list of its decoded lines; the loop's whole
observable effect is the list of lines it logs. -/

/-- Python's substring test `sub in s`. -/
def pyContains (s sub : List Char) : Bool :=
  (strFind s sub 0).isSome

/-- Python `s.lower()` (ASCII case folding suffices for the strings used). -/
def pyLower (s : List Char) : List Char :=
  s.map Char.toLower

/-- The spec's classification, written from its words: the line
case-insensitively contains the substring. Kept separate from the source's
check so the two can be compared. -/
def ciContains (s sub : List Char) : Bool :=
  pyContains (pyLower s) (pyLower sub)

/-- Python `s.rstrip()`. -/
def pyRstrip (s : List Char) : List Char :=
  (s.reverse.dropWhile Char.isWhitespace).reverse

/-- The source's error test:
`"ERROR" in text or "Error" in text or "error" in text`. -/
def isErrorLike (text : List Char) : Bool :=
  pyContains text ("ERROR".toList) || pyContains text ("Error".toList) ||
    pyContains text ("error".toList)

/-- `_drain_stderr` over a whole stream: the lines it logs, in order. -/
def drain_stderr (lines : List (List Char)) : List (List Char) :=
  lines.filterMap (fun raw =>
    if isErrorLike (pyRstrip raw) then some (pyRstrip raw) else none)

theorem pyContains_lower (s sub : List Char) (h : pyContains s sub = true) :
    pyContains (pyLower s) (pyLower sub) = true := by
  unfold pyContains strFind at h ⊢
  obtain ⟨i, hmem, hp⟩ := List.find?_isSome.mp h
  rw [Bool.and_eq_true] at hp
  obtain ⟨hi, hm⟩ := hp
  have hpre : sub <+: s.drop i := List.isPrefixOf_iff_prefix.mp hm
  have hpre2 : pyLower sub <+: (pyLower s).drop i := by
    unfold pyLower
    rw [← List.map_drop]
    exact List.IsPrefix.map _ hpre
  apply List.find?_isSome.mpr
  refine ⟨i, ?_, ?_⟩
  · have : (pyLower s).length = s.length := List.length_map _ _
    rw [this]
    exact hmem
  · rw [Bool.and_eq_true]
    exact ⟨hi, List.isPrefixOf_iff_prefix.mpr hpre2⟩

theorem isErrorLike_ci (t : List Char) (h : isErrorLike t = true) :
    ciContains t ("error".toList) = true := by
  unfold isErrorLike at h
  rw [Bool.or_eq_true, Bool.or_eq_true] at h
  unfold ciContains
  rw [show pyLower ("error".toList) = "error".toList from by decide]
  rcases h with (h | h) | h
  · have := pyContains_lower _ _ h
    rw [show pyLower ("ERROR".toList) = "error".toList from by decide] at this
    exact this
  · have := pyContains_lower _ _ h
    rw [show pyLower ("Error".toList) = "error".toList from by decide] at this
    exact this
  · have := pyContains_lower _ _ h
    rw [show pyLower ("error".toList) = "error".toList from by decide] at this
    exact this

/-- C3 counterexample: the line "eRrOr" case-insensitively contains "error"
but the drain does not log it, so "logged iff case-insensitive contains" is
false on the code. -/
theorem drain_case_insensitive_cex :
    drain_stderr [("eRrOr".toList)] = [] ∧
    ciContains ("eRrOr".toList) ("error".toList) = true := by
  exact ⟨by decide, by decide⟩

/-- C3 (amended): a consumed stderr line is logged iff it contains one of the
exact substrings "ERROR", "Error" or "error"; every logged line does
case-insensitively contain "error", but not conversely. -/
theorem drain_logs_exact_casings (lines : List (List Char)) (raw : List Char)
    (h : raw ∈ lines) :
    (pyRstrip raw ∈ drain_stderr lines ↔
      (pyContains (pyRstrip raw) ("ERROR".toList) ||
        pyContains (pyRstrip raw) ("Error".toList) ||
        pyContains (pyRstrip raw) ("error".toList)) = true) ∧
    (∀ x ∈ drain_stderr lines, ciContains x ("error".toList) = true) := by
  constructor
  · constructor
    · intro hmem
      obtain ⟨r, _, heq⟩ := List.mem_filterMap.mp hmem
      show isErrorLike (pyRstrip raw) = true
      by_cases hel : isErrorLike (pyRstrip r) = true
      · rw [if_pos hel] at heq
        injection heq with heq2
        rw [heq2] at hel
        exact hel
      · rw [if_neg hel] at heq
        exact absurd heq (Option.some_ne_none _).symm
    · intro hel
      exact List.mem_filterMap.mpr
        ⟨raw, h, by rw [if_pos (show isErrorLike (pyRstrip raw) = true from hel)]⟩
  · intro x hx
    obtain ⟨r, _, heq⟩ := List.mem_filterMap.mp hx
    by_cases hel : isErrorLike (pyRstrip r) = true
    · rw [if_pos hel] at heq
      injection heq with heq2
      rw [← heq2]
      exact isErrorLike_ci _ hel
    · rw [if_neg hel] at heq
      exact absurd heq (Option.some_ne_none _).symm

/-- Witness for C3 at the single-line stream ["Error"]. -/
theorem drain_logs_exact_casings_witness :
    (pyRstrip ("Error".toList) ∈ drain_stderr [("Error".toList)] ↔
      (pyContains (pyRstrip ("Error".toList)) ("ERROR".toList) ||
        pyContains (pyRstrip ("Error".toList)) ("Error".toList) ||
        pyContains (pyRstrip ("Error".toList)) ("error".toList)) = true) ∧
    (∀ x ∈ drain_stderr [("Error".toList)], ciContains x ("error".toList) = true) :=
  drain_logs_exact_casings [("Error".toList)] ("Error".toList) (by simp)

/-- C5 counterexample: a non-error line is consumed and then appears nowhere
in the drain task's output — it is discarded, not retained in any buffer. -/
theorem drain_discards_nonerror_cex :
    drain_stderr [("starting server".toList)] = [] ∧
    isErrorLike ("starting server".toList) = false := by
  exact ⟨by decide, by decide⟩

/-- C5 (amended): the drain task's entire output is the rstripped error-like
lines; non-error lines are swallowed and not retained anywhere. -/
theorem drain_output_only_errorlike (lines : List (List Char)) :
    drain_stderr lines = (lines.map pyRstrip).filter isErrorLike ∧
    (∀ x, x ∈ drain_stderr lines → isErrorLike x = true) := by
  have hmain : drain_stderr lines = (lines.map pyRstrip).filter isErrorLike := by
    induction lines with
    | nil => rfl
    | cons a t ih =>
      unfold drain_stderr at ih ⊢
      rw [List.filterMap_cons, List.map_cons, List.filter_cons]
      by_cases hel : isErrorLike (pyRstrip a) = true
      · rw [if_pos hel, hel, ih]
        rfl
      · rw [if_neg hel, ih]
        rw [Bool.not_eq_true] at hel
        rw [hel]
        rfl
  exact ⟨hmain, fun x hx => (List.mem_filter.mp (hmain ▸ hx)).2⟩

/-! ## ExpectationChecker (src/main.py, `print_result`)

    labels = {item.label for item in items}
    hits = [label for label in expected if label in labels]
    misses = [label for label in expected if label not in labels]
-/

/-- A completion item as consumed by the checker: only its label matters. -/
structure CompletionItem where
  label : List Char
deriving DecidableEq

/-- Membership in the set `{item.label for item in items}`. -/
def labelSetMem (items : List CompletionItem) (l : List Char) : Bool :=
  items.any (fun it => decide (it.label = l))

/-- `hits = [label for label in expected if label in labels]`. -/
def hitsOf (items : List CompletionItem) (expected : List (List Char)) : List (List Char) :=
  expected.filter (fun l => labelSetMem items l)

/-- `misses = [label for label in expected if label not in labels]`. -/
def missesOf (items : List CompletionItem) (expected : List (List Char)) : List (List Char) :=
  expected.filter (fun l => !labelSetMem items l)

theorem labelSetMem_perm (items itemsP : List CompletionItem) (hperm : items.Perm itemsP)
    (l : List Char) : labelSetMem items l = labelSetMem itemsP l := by
  unfold labelSetMem
  cases h1 : itemsP.any (fun it => decide (it.label = l)) with
  | true =>
    obtain ⟨x, hx, hp⟩ := List.any_eq_true.mp h1
    refine List.any_eq_true.mpr ⟨x, ?_, ?_⟩
    · exact hperm.mem_iff.mpr hx
    · exact hp
  | false =>
    rw [Bool.eq_false_iff]
    intro h2
    obtain ⟨x, hx, hp⟩ := List.any_eq_true.mp h2
    have h3 : itemsP.any (fun it => decide (it.label = l)) = true := by
      refine List.any_eq_true.mpr ⟨x, ?_, ?_⟩
      · exact hperm.mem_iff.mp hx
      · exact hp
    rw [h1] at h3
    exact Bool.false_ne_true h3

/-- C6: the checker is order-independent in the returned items and produces
hit and miss lists in the expected list's order (they are subsequences of
it); on expected ["greet","grab"] and returned labels ["grab","greet","other"]
the hits are ["greet","grab"] and the misses are empty. -/
theorem print_result_order_independent (items itemsP : List CompletionItem)
    (expected : List (List Char)) (hperm : items.Perm itemsP) :
    hitsOf items expected = hitsOf itemsP expected ∧
    missesOf items expected = missesOf itemsP expected ∧
    (hitsOf items expected).Sublist expected ∧
    (missesOf items expected).Sublist expected ∧
    hitsOf [CompletionItem.mk ("grab".toList), CompletionItem.mk ("greet".toList),
        CompletionItem.mk ("other".toList)] [("greet".toList), ("grab".toList)] =
      [("greet".toList), ("grab".toList)] ∧
    missesOf [CompletionItem.mk ("grab".toList), CompletionItem.mk ("greet".toList),
        CompletionItem.mk ("other".toList)] [("greet".toList), ("grab".toList)] = [] := by
  refine ⟨?_, ?_, List.filter_sublist _, List.filter_sublist _, by decide, by decide⟩
  · exact List.filter_congr (fun l _ => labelSetMem_perm items itemsP hperm l)
  · exact List.filter_congr (fun l _ => by rw [labelSetMem_perm items itemsP hperm l])

/-- Witness for C6 (hypothesis discharged with the identity permutation). -/
theorem print_result_order_independent_witness :
    hitsOf [CompletionItem.mk ("grab".toList), CompletionItem.mk ("greet".toList),
        CompletionItem.mk ("other".toList)] [("greet".toList), ("grab".toList)] =
      [("greet".toList), ("grab".toList)] ∧
    missesOf [CompletionItem.mk ("grab".toList), CompletionItem.mk ("greet".toList),
        CompletionItem.mk ("other".toList)] [("greet".toList), ("grab".toList)] = [] :=
  ((print_result_order_independent [] [] [] (List.Perm.refl [])).2.2.2.2)

/-- C7: the checker is a total function — embedded as plain list filters it
cannot fail — and an empty returned-items list yields no hits and all of
the expected labels as misses; in particular expected ["return"] yields
hits [] and misses ["return"]. -/
theorem print_result_total_empty (expected : List (List Char)) :
    hitsOf [] expected = [] ∧ missesOf [] expected = expected ∧
    hitsOf [] [("return".toList)] = [] ∧
    missesOf [] [("return".toList)] = [("return".toList)] := by
  refine ⟨?_, ?_, by decide, by decide⟩
  · unfold hitsOf labelSetMem
    induction expected with
    | nil => rfl
    | cons a t ih => rw [List.filter_cons_of_neg (by simp), ih]
  · unfold missesOf labelSetMem
    exact List.filter_eq_self.mpr (fun a _ => by simp)

/-- C10: hits and misses partition the expected list: both are subsequences
of it, their lengths and multiplicities add up to expected's, a label is a
hit exactly when it is expected and matches some returned item's label, a
miss exactly otherwise, and no label is both. -/
theorem hits_misses_partition (items : List CompletionItem) (expected : List (List Char)) :
    (hitsOf items expected).Sublist expected ∧
    (missesOf items expected).Sublist expected ∧
    (hitsOf items expected).length + (missesOf items expected).length = expected.length ∧
    (∀ l, (hitsOf items expected).count l + (missesOf items expected).count l =
      expected.count l) ∧
    (∀ l, l ∈ hitsOf items expected ↔ l ∈ expected ∧ ∃ it ∈ items, it.label = l) ∧
    (∀ l, l ∈ missesOf items expected ↔ l ∈ expected ∧ ¬∃ it ∈ items, it.label = l) ∧
    (∀ l, ¬(l ∈ hitsOf items expected ∧ l ∈ missesOf items expected)) := by
  have hmemiff : ∀ l, labelSetMem items l = true ↔ ∃ it ∈ items, it.label = l := by
    intro l
    unfold labelSetMem
    rw [List.any_eq_true]
    constructor
    · rintro ⟨it, hit, hp⟩
      exact ⟨it, hit, of_decide_eq_true hp⟩
    · rintro ⟨it, hit, hp⟩
      exact ⟨it, hit, decide_eq_true hp⟩
  have hlen : ∀ (p : List Char → Bool) (l : List (List Char)),
      (l.filter p).length + (l.filter (fun a => !p a)).length = l.length := by
    intro p l
    induction l with
    | nil => rfl
    | cons a t ih =>
      cases h : p a
      · rw [List.filter_cons_of_neg (by simp [h]), List.filter_cons_of_pos (by simp [h])]
        simp only [List.length_cons]
        omega
      · rw [List.filter_cons_of_pos (by simp [h]), List.filter_cons_of_neg (by simp [h])]
        simp only [List.length_cons]
        omega
  refine ⟨List.filter_sublist _, List.filter_sublist _, hlen _ _, ?_, ?_, ?_, ?_⟩
  · intro l
    unfold hitsOf missesOf
    have hcount : ∀ (p : List Char → Bool) (a : List Char), p a = true →
        ∀ (l : List (List Char)), (l.filter p).count a = l.count a := by
      intro p a hpa l
      induction l with
      | nil => rfl
      | cons b t ih =>
        by_cases hb : p b = true
        · rw [List.filter_cons_of_pos hb, List.count_cons, List.count_cons, ih]
        · rw [List.filter_cons_of_neg hb, ih, List.count_cons]
          have hba : (b == a) = false := by
            rw [beq_eq_false_iff_ne]
            intro he
            rw [he] at hb
            exact hb hpa
          rw [hba]
          simp
    have hcount0 : ∀ (p : List Char → Bool) (a : List Char), p a = false →
        ∀ (l : List (List Char)), (l.filter p).count a = 0 := by
      intro p a hpa l
      rw [List.count_eq_zero]
      intro hmem
      have hb := (List.mem_filter.mp hmem).2
      rw [hpa] at hb
      exact Bool.false_ne_true hb
    by_cases hm : labelSetMem items l = true
    · rw [hcount (fun a => labelSetMem items a) l hm expected,
        hcount0 (fun a => !labelSetMem items a) l (by simp [hm]) expected]
      omega
    · have hmf : labelSetMem items l = false := Bool.not_eq_true _ |>.mp hm
      rw [hcount0 (fun a => labelSetMem items a) l hmf expected,
        hcount (fun a => !labelSetMem items a) l (by simp [hmf]) expected]
      omega
  · intro l
    unfold hitsOf
    rw [List.mem_filter, hmemiff]
  · intro l
    unfold missesOf
    rw [List.mem_filter]
    constructor
    · rintro ⟨hexp, hb⟩
      refine ⟨hexp, fun hex => ?_⟩
      rw [(hmemiff l).mpr hex] at hb
      simp at hb
    · rintro ⟨hexp, hnex⟩
      refine ⟨hexp, ?_⟩
      have : labelSetMem items l = false := by
        rw [← Bool.not_eq_true]
        exact fun hb => hnex ((hmemiff l).mp hb)
      rw [this]
      rfl
  · rintro l ⟨h1, h2⟩
    have hb1 := (List.mem_filter.mp h1).2
    have hb2 := (List.mem_filter.mp h2).2
    simp only at hb1 hb2
    rw [hb1] at hb2
    simp at hb2

/-! ## Completion request context (src/main.py, `request_completion`)

    if trigger_character:
        context = CompletionContext(trigger_kind=TriggerCharacter,
                                    trigger_character=trigger_character)
    else:
        context = CompletionContext(trigger_kind=Invoked)
    params = CompletionParams(text_document=..., position=..., context=context)
-/

/-- lsprotocol `types.CompletionTriggerKind`. -/
inductive CompletionTriggerKind where
  | Invoked
  | TriggerCharacter
  | TriggerForIncompleteCompletions
deriving DecidableEq

/-- lsprotocol `types.CompletionContext`: `trigger_character` defaults to
`None` when not passed. -/
structure CompletionContext where
  trigger_kind : CompletionTriggerKind
  trigger_character : Option (List Char)
deriving DecidableEq

/-- lsprotocol `types.TextDocumentIdentifier`. -/
structure TextDocumentIdentifier where
  uri : List Char
deriving DecidableEq

/-- lsprotocol `types.CompletionParams` as built by `request_completion`. -/
structure CompletionParams where
  text_document : TextDocumentIdentifier
  position : Position
  context : CompletionContext
deriving DecidableEq

/-- Python truthiness of an optional string: `None` and `""` are falsy. -/
def pyTruthy : Option (List Char) → Bool
  | none => false
  | some s => !s.isEmpty

/-- The params `request_completion` sends (its one response-free effect). -/
def request_completion (uri : List Char) (position : Position)
    (trigger_character : Option (List Char)) : CompletionParams :=
  let context :=
    if pyTruthy trigger_character then
      CompletionContext.mk CompletionTriggerKind.TriggerCharacter trigger_character
    else
      CompletionContext.mk CompletionTriggerKind.Invoked none
  CompletionParams.mk (TextDocumentIdentifier.mk uri) position context

/-- C9: the empty string as trigger character is falsy, so the request is
built exactly as with no trigger character: an Invoked context with no
trigger character, for every uri and position. -/
theorem request_completion_empty_trigger (uri : List Char) (position : Position) :
    request_completion uri position (some []) = request_completion uri position none ∧
    (request_completion uri position (some [])).context.trigger_kind =
      CompletionTriggerKind.Invoked ∧
    (request_completion uri position (some [])).context.trigger_character = none := by
  exact ⟨rfl, rfl, rfl⟩

end CRA
